import Mathlib

/-!
Shallow embedding of the incremental playlist-mirroring core of `fm163.py`,
together with theorems settling the spec claims about it.

Python `SortedSet`s of track ids are modelled as `Finset Nat`; duck-typed
track dicts become the `Track` structure; fallible file IO becomes explicit
state passing; the external collaborators (the NetEase detail fetcher, the
LeanCloud store, the `ncm` downloader subprocess) become oracle parameters.
-/

namespace Fm163

/-- Quality-variant slot of a track dict: the key may be absent, bound to
`None`, or bound to a dict whose `dfsId` field may be absent, null, or an
integer (`track[quality]` / `track[quality]['dfsId']` in `dfs_id`). -/
inductive QVariant where
  | absent : QVariant
  | null : QVariant
  | record : Option (Option Int) → QVariant
  deriving DecidableEq, Repr

/-- Track record (`Track = Dict[str, Any]` in the source): an id, a display
name, and the quality-variant slots consulted by `dfs_id`. -/
structure Track where
  id : Nat
  name : String
  variants : String → QVariant

/-- Playlist as returned by the remote collaborator: the ordered track
sequence the code iterates, plus the remote-declared total.  The declared
count is modelled from the spec (it lives inside the external MusicBoxApi
collaborator, not in this repository's code); `download` in the source only
ever touches the track list. -/
structure Playlist where
  tracks : List Track
  trackCount : Nat

/-- Unix sysexits code for internal software errors (`os.EX_SOFTWARE`). -/
def EX_SOFTWARE : Nat := 70

/-- Unix sysexits code for input/output errors (`os.EX_IOERR`). -/
def EX_IOERR : Nat := 74

/-- Unix sysexits code for usage errors (`os.EX_USAGE`). -/
def EX_USAGE : Nat := 64

/-- Observable effect of a `sys.exit` path: what was printed to stderr,
whether a stack trace was printed, and the exit code. -/
structure ExitReport where
  stderrMsg : String
  stacktrace : Bool
  exitCode : Nat
  deriving DecidableEq, Repr

/-- Embedding of `bug()`: prints bug-report instructions and a stack trace
to stderr, then exits with `os.EX_SOFTWARE` (70). -/
def bug : ExitReport :=
  { stderrMsg :=
      "Most likely you have encountered a bug.\n" ++
      "Please report it at https://github.com/weakish/fm163\n" ++
      "Thanks.\n" ++ "\n" ++
      "Stacktrace:\n"
    stacktrace := true
    exitCode := EX_SOFTWARE }

/-- Run of the serializer callback inside `serialize`: either it wrote the
full serialized content, or it raised (OverflowError / TypeError /
ValueError / PicklingError) after writing a prefix. -/
inductive SerializerRun where
  | success : String → SerializerRun
  | failure : String → SerializerRun
  deriving DecidableEq, Repr

/-- Status of a `serialize` call: the rename completed, or the run exited
through `bug()`. -/
inductive SerStatus where
  | completed : SerStatus
  | bugExit : ExitReport → SerStatus
  deriving DecidableEq, Repr

/-- Post-state of a `serialize` call: its status, the destination file's
content (`none` = absent), and the leftover temporary file content
(`none` once `os.replace` has moved it onto the destination). -/
structure SerializeResult where
  status : SerStatus
  dest : Option String
  temp : Option String
  deriving DecidableEq, Repr

/-- Embedding of `serialize(thing, path, mode, serializer)`: a temporary
file is created, the serializer runs into it; on any serialization
exception the run goes through `bug()` and the temporary file is abandoned
with no rename, otherwise the temporary file is closed and `os.replace`
atomically renames it onto the destination. -/
def serialize (run : SerializerRun) (dest : Option String) : SerializeResult :=
  match run with
  | .failure written => { status := .bugExit bug, dest := dest, temp := some written }
  | .success content => { status := .completed, dest := some content, temp := none }

/-- State of a local store file on disk: absent, or present with raw bytes. -/
inductive FileState where
  | absent : FileState
  | present : String → FileState

/-- Result of loading a local store: a value, or an exit through `bug()`. -/
inductive LoadResult (α : Type) where
  | value : α → LoadResult α
  | bugged : ExitReport → LoadResult α

/-- Embedding of `load_meta()`: absent file (`FileNotFoundError`) yields the
empty list; a present file is parsed (the JSON decoder is the `parse`
oracle) and a `JSONDecodeError` (`parse` returning `none`) goes through
`bug()`. -/
def load_meta (parse : String → Option (List Track)) : FileState → LoadResult (List Track)
  | .absent => .value []
  | .present raw =>
    match parse raw with
    | none => .bugged bug
    | some meta => .value meta

/-- Embedding of `load_history()`: absent file yields an empty `SortedSet`;
a present file is unpickled (the `parse` oracle) and an `UnpicklingError`
goes through `bug()`. -/
def load_history (parse : String → Option (Finset Nat)) : FileState → LoadResult (Finset Nat)
  | .absent => .value ∅
  | .present raw =>
    match parse raw with
    | none => .bugged bug
    | some history => .value history

/-- Python dict insertion: if the key is already bound its value is
replaced in place (position kept), otherwise the binding is appended. -/
def dictInsert (d : List (Nat × Track)) (k : Nat) (v : Track) : List (Nat × Track) :=
  if d.any (fun p => p.1 = k) then
    d.map (fun p => if p.1 = k then (k, v) else p)
  else
    d ++ [(k, v)]

/-- Embedding of the dict comprehension `{track["id"]: track for track in meta}`. -/
def dictOfMeta (meta : List Track) : List (Nat × Track) :=
  meta.foldl (fun d t => dictInsert d t.id t) []

/-- Embedding of `deduplicate(meta)`: builds the id-keyed dict and returns
`(SortedSet(d.keys()), list(d.values()))`. -/
def deduplicate (meta : List Track) : Finset Nat × List Track :=
  (((dictOfMeta meta).map Prod.fst).toFinset, (dictOfMeta meta).map Prod.snd)

/-- Embedding of `dfs_id(track, qualities)`: walks the preference tuple in
order; a listed quality is used when it is present, non-null, and carries a
non-null `dfsId`; exhausting the tuple raises (`KeyError`, the spec's
NoResourceAvailable), modelled as `Except.error`. -/
def dfs_id (track : Track) (qualities : List String) : Except Unit Int :=
  match qualities with
  | [] => .error ()
  | quality :: rest =>
    match track.variants quality with
    | .absent => dfs_id track rest
    | .null => dfs_id track rest
    | .record none => dfs_id track rest
    | .record (some none) => dfs_id track rest
    | .record (some (some d)) => .ok d

/-- Specification-side selector for claim C5, written from the spec's words:
the first variant named in the preference list that carries a non-null
resource id, `none` when the list is exhausted. -/
def selectResourceIdSpec (track : Track) (qualities : List String) : Option Int :=
  qualities.findSome? fun q =>
    match track.variants q with
    | .record (some (some d)) => some d
    | _ => none

/-- Files written by `update_history`: the pickled `SortedSet` persisted to
the history db, and the ascending id list dumped to `songs_id.json`
(iterating a `SortedSet` yields ascending order). -/
structure HistorySave where
  history : Finset Nat
  songsId : List Nat

/-- Embedding of `update_history(history, ids)`: `history.update(ids)` adds
the ids in place, then the grown set is saved and exported as a sorted
JSON list. -/
def update_history (history ids : Finset Nat) : HistorySave :=
  { history := history ∪ ids
    songsId := (history ∪ ids).sort (· ≤ ·) }

/-- Message formatted by `update_meta` when a fetch round made no progress
(the source's f-string, including its trailing newline). -/
def cannotFetchMsg (todo : Nat) : String :=
  "Cannot fetch " ++ toString todo ++ " tracks. Probably they are gone (404).\n"

/-- Result of `update_meta`: the extended metadata list, the messages
printed, and the number of batch `songs_detail` fetches performed. -/
structure UMResult where
  meta : List Track
  msgs : List String
  rounds : Nat

/-- Fuel-indexed body of `update_meta`; the fuel only bounds recursion depth
so the definition is structural.  Each recursive call passes
`stillMissing.card` as the new `todo`, and the call is guarded by
`stillMissing.card < todo`, so running with `fuel = todo` never exhausts
the fuel (`updateMetaAux_fuel` below). -/
def updateMetaAux (fetch : Finset Nat → List Track) :
    Nat → List Track → Finset Nat → Nat → UMResult
  | _, meta, _, 0 => ⟨meta, [], 0⟩
  | 0, meta, _, _ + 1 => ⟨meta, [], 0⟩
  | fuel + 1, meta, missing, todo + 1 =>
    let details := fetch missing
    let meta' := meta ++ details
    let fetched : Finset Nat := (details.map Track.id).toFinset
    let stillMissing := missing \ fetched
    if 0 < stillMissing.card then
      if stillMissing.card < todo + 1 then
        let r := updateMetaAux fetch fuel meta' stillMissing stillMissing.card
        ⟨r.meta, r.msgs, r.rounds + 1⟩
      else
        ⟨meta', [cannotFetchMsg (todo + 1)], 1⟩
    else
      ⟨meta', [], 1⟩

/-- Embedding of `update_meta(meta, missing, todo)`: if `todo` is zero do
nothing; otherwise fetch detail for `missing` in one batch, extend `meta`,
and recurse on the still-missing ids when progress was made, else print
the cannot-fetch report.  `fetch` is the external `netease.songs_detail`
collaborator. -/
def update_meta (fetch : Finset Nat → List Track) (meta : List Track)
    (missing : Finset Nat) (todo : Nat) : UMResult :=
  updateMetaAux fetch todo meta missing todo

/-- Result of `export_history()`: the grown ledger and its JSON export, the
metadata list passed to `save_meta`, and the messages printed. -/
structure ExportResult where
  historyAfter : Finset Nat
  songsId : List Nat
  metaSaved : List Track
  msgs : List String

/-- Embedding of `export_history()`: load both stores (their loaded values
are the `history` and `meta0` arguments), deduplicate the metadata, grow
the ledger with the metadata ids, fetch detail for history ids missing
from the metadata, then save the extended metadata. -/
def export_history (fetch : Finset Nat → List Track)
    (history : Finset Nat) (meta0 : List Track) : ExportResult :=
  let dd := deduplicate meta0
  let trackIds := dd.1
  let meta := dd.2
  let missingFromMeta := history \ trackIds
  let hs := update_history history trackIds
  let um := update_meta fetch meta missingFromMeta missingFromMeta.card
  { historyAfter := hs.history
    songsId := hs.songsId
    metaSaved := um.meta
    msgs := um.msgs }

/-- Line printed by `skip_download(track)`. -/
def skipLine (t : Track) : String :=
  "SKIP " ++ t.name ++ " http://music.163.com/#/song?id=" ++ toString t.id ++ "\n"

/-- Summary string printed by `download` when some but not all tracks were
skipped (the source's f-string, including its leading blank line). -/
def summaryLine (k n : Nat) : String :=
  "\nSkipped " ++ toString k ++ " of " ++ toString n ++ " tracks in the playlist."

/-- State threaded through the reconciliation loop of `download`: the ids
present in the remote Track store (queried via LeanCloud), the Track
records saved to it, the skip counter, the track ids handed to the
external downloader, and the lines printed. -/
structure Reconc where
  store : Finset Nat
  records : List Track
  skipped : Nat
  acquired : List Nat
  msgs : List String

/-- One iteration of the `download` loop for one track.  `acqOk` is the
success of the `ncm` downloader subprocess for this track; the source
discards `subprocess.run`'s result, so the transition ignores it: a failed
acquisition never blocks the store/metadata addition. -/
def downloadStep (dryRun : Bool) (acqOk : Bool) (s : Reconc) (t : Track) : Reconc :=
  if t.id ∈ s.store then
    { s with skipped := s.skipped + 1, msgs := s.msgs ++ [skipLine t] }
  else
    { s with
      store := insert t.id s.store
      records := s.records ++ [t]
      acquired := if dryRun then s.acquired else s.acquired ++ [t.id] }

/-- The `for track in playlist` loop of `download`, with `acq` reporting
each `ncm` invocation's success. -/
def downloadLoop (dryRun : Bool) (acq : Nat → Bool) (s : Reconc) :
    List Track → Reconc
  | [] => s
  | t :: ts => downloadLoop dryRun acq (downloadStep dryRun (acq t.id) s t) ts

/-- Post-loop outcome of `download`: the `AllTracksSkippedException`, the
printed partial-skip summary, or silence. -/
inductive DownloadOutcome where
  | allSkipped : DownloadOutcome
  | summary : String → DownloadOutcome
  | silent : DownloadOutcome
  deriving DecidableEq, Repr

/-- Post-loop accounting of `download` as the source writes it: `skipped`
zero is silent, `skipped` equal to `len(playlist)` raises
`AllTracksSkippedException`, anything else prints the summary with
`n = len(playlist)`. -/
def skipAccounting (k n : Nat) : DownloadOutcome :=
  if k = 0 then .silent
  else if k = n then .allSkipped
  else .summary (summaryLine k n)

/-- Embedding of `download(list_id, dry_run)` from the point the playlist
has been fetched: `store` is the remote Track store's initial id set and
`acq` the downloader oracle; returns the final loop state and the
post-loop outcome. -/
def download (dryRun : Bool) (acq : Nat → Bool) (store : Finset Nat)
    (p : Playlist) : Reconc × DownloadOutcome :=
  let final := downloadLoop dryRun acq ⟨store, [], 0, [], []⟩ p.tracks
  (final, skipAccounting final.skipped p.tracks.length)

/-- Claim-side outcome for C1, written from the claim's words: identical
skip accounting but with the remote-declared `trackCount` as the total. -/
def downloadOutcomeClaim (dryRun : Bool) (acq : Nat → Bool) (store : Finset Nat)
    (p : Playlist) : DownloadOutcome :=
  skipAccounting (downloadLoop dryRun acq ⟨store, [], 0, [], []⟩ p.tracks).skipped
    p.trackCount

/-- Claim-side accounting for the amended claim C1: the same three-way
split, with the total taken as the length of the returned track sequence
and the skip count as the number of returned tracks already in the store. -/
def downloadOutcomeAmendedClaim (store : Finset Nat) (p : Playlist) : DownloadOutcome :=
  let k := p.tracks.countP fun t => decide (t.id ∈ store)
  let n := p.tracks.length
  if k = 0 then .silent
  else if k = n then .allSkipped
  else .summary (summaryLine k n)

/-- Sample track used by concrete witnesses and counterexamples. -/
def trackA : Track := ⟨5, "a", fun _ => .absent⟩

/-- Second sample track with a distinct id. -/
def trackB : Track := ⟨6, "b", fun _ => .absent⟩

/-- Sample track sharing `trackA`'s id but with different payload. -/
def trackA2 : Track := ⟨5, "a2", fun _ => .absent⟩

/-! Lemmas about the dict embedding used by `deduplicate`. -/

/-- Keys of the id-keyed dict, in insertion order. -/
def keysOf (d : List (Nat × Track)) : List Nat := d.map Prod.fst

/-- Value bound to a key in the dict, `none` when unbound. -/
def lookupD (d : List (Nat × Track)) (k : Nat) : Option Track :=
  (d.find? (fun p => decide (p.1 = k))).map Prod.snd

theorem dictInsert_keys (d : List (Nat × Track)) (k : Nat) (v : Track) :
    keysOf (dictInsert d k v) =
      if k ∈ keysOf d then keysOf d else keysOf d ++ [k] := by
  unfold dictInsert keysOf
  by_cases h : k ∈ d.map Prod.fst
  · have hany : (d.any fun p => decide (p.1 = k)) = true := by
      simp only [List.any_eq_true, decide_eq_true_eq]
      obtain ⟨p, hp, hpk⟩ := List.mem_map.mp h
      exact ⟨p, hp, hpk⟩
    rw [if_pos hany, if_pos h, List.map_map]
    refine List.map_congr_left ?_
    intro p _
    by_cases hpk : p.1 = k
    · simp [hpk]
    · simp [hpk]
  · have hany : (d.any fun p => decide (p.1 = k)) = false := by
      simp only [List.any_eq_false, decide_eq_true_eq]
      intro p hp hpk
      exact h (List.mem_map.mpr ⟨p, hp, hpk⟩)
    rw [if_neg (by simp [hany]), if_neg h, List.map_append]
    rfl

theorem dictInsert_keys_mem (d : List (Nat × Track)) (k : Nat) (v : Track)
    (k' : Nat) :
    k' ∈ keysOf (dictInsert d k v) ↔ k' ∈ keysOf d ∨ k' = k := by
  rw [dictInsert_keys]
  by_cases h : k ∈ keysOf d
  · rw [if_pos h]
    constructor
    · exact Or.inl
    · rintro (hk | rfl)
      · exact hk
      · exact h
  · rw [if_neg h]
    simp

theorem dictInsert_keys_nodup (d : List (Nat × Track)) (k : Nat) (v : Track)
    (h : (keysOf d).Nodup) : (keysOf (dictInsert d k v)).Nodup := by
  rw [dictInsert_keys]
  by_cases hk : k ∈ keysOf d
  · rwa [if_pos hk]
  · rw [if_neg hk]
    rw [List.nodup_append]
    exact ⟨h, List.nodup_singleton k, by simpa using hk⟩

theorem dictInsert_wf (d : List (Nat × Track)) (k : Nat) (v : Track)
    (hd : ∀ p ∈ d, p.2.id = p.1) (hv : v.id = k) :
    ∀ p ∈ dictInsert d k v, p.2.id = p.1 := by
  unfold dictInsert
  by_cases hany : (d.any fun p => decide (p.1 = k)) = true
  · rw [if_pos hany]
    intro p hp
    obtain ⟨q, hq, hqp⟩ := List.mem_map.mp hp
    by_cases hqk : q.1 = k
    · rw [if_pos hqk] at hqp
      rw [← hqp]
      exact hv
    · rw [if_neg hqk] at hqp
      rw [← hqp]
      exact hd q hq
  · rw [if_neg hany]
    intro p hp
    rcases List.mem_append.mp hp with hp | hp
    · exact hd p hp
    · rw [List.mem_singleton.mp hp]
      exact hv

theorem find_replace (k : Nat) (v : Track) (k' : Nat) :
    ∀ d : List (Nat × Track),
    (d.map fun p => if p.1 = k then (k, v) else p).find? (fun p => decide (p.1 = k'))
      = if k' = k then (d.find? (fun p => decide (p.1 = k))).map (fun _ => (k, v))
        else d.find? (fun p => decide (p.1 = k'))
  | [] => by by_cases h : k' = k <;> simp [h]
  | p :: ds => by
    have ih := find_replace k v k' ds
    by_cases hpk : p.1 = k
    · by_cases hkk : k' = k
      · subst hkk
        simp [List.find?_cons, hpk, ih]
      · simp [List.find?_cons, hpk, hkk, Ne.symm hkk, ih]
    · by_cases hpk' : p.1 = k'
      · by_cases hkk : k' = k
        · exact absurd (hkk ▸ hpk') hpk
        · simp [List.find?_cons, hpk, hpk', hkk]
      · by_cases hkk : k' = k
        · subst hkk
          simp [List.find?_cons, hpk, ih]
        · simp [List.find?_cons, hpk, hpk', hkk, ih]

theorem lookupD_dictInsert (d : List (Nat × Track)) (k : Nat) (v : Track)
    (k' : Nat) :
    lookupD (dictInsert d k v) k' = if k' = k then some v else lookupD d k' := by
  unfold dictInsert lookupD
  by_cases hany : (d.any fun p => decide (p.1 = k)) = true
  · rw [if_pos hany, find_replace]
    by_cases hkk : k' = k
    · rw [if_pos hkk, if_pos hkk]
      have hsome : (d.find? fun p => decide (p.1 = k)).isSome := by
        rw [List.find?_isSome]
        obtain ⟨q, hq, hqk⟩ := List.any_eq_true.mp hany
        exact ⟨q, hq, hqk⟩
      obtain ⟨q, hq⟩ := Option.isSome_iff_exists.mp hsome
      rw [hq]
      rfl
    · rw [if_neg hkk, if_neg hkk]
  · rw [if_neg hany]
    have hnone : d.find? (fun p => decide (p.1 = k)) = none := by
      rw [List.find?_eq_none]
      intro p hp hdec
      exact hany (List.any_eq_true.mpr ⟨p, hp, hdec⟩)
    by_cases hkk : k' = k
    · subst hkk
      rw [if_pos rfl, List.find?_append, hnone]
      simp [Option.orElse]
    · rw [if_neg hkk, List.find?_append]
      have hsing : ([(k, v)].find? fun p => decide (p.1 = k')) = none := by
        rw [List.find?_eq_none]
        intro p hp
        rw [List.mem_singleton.mp hp]
        simpa using fun h : k = k' => hkk h.symm
      cases hfd : d.find? (fun p => decide (p.1 = k')) <;>
        simp [hfd, hsing, Option.orElse]

theorem dictOfMeta_go_wf (meta : List Track) :
    ∀ d : List (Nat × Track), (∀ p ∈ d, p.2.id = p.1) →
      ∀ p ∈ meta.foldl (fun acc t => dictInsert acc t.id t) d, p.2.id = p.1 := by
  induction meta with
  | nil => intro d hd; exact hd
  | cons t ts ih =>
    intro d hd
    exact ih (dictInsert d t.id t) (dictInsert_wf d t.id t hd rfl)

theorem dictOfMeta_go_nodup (meta : List Track) :
    ∀ d : List (Nat × Track), (keysOf d).Nodup →
      (keysOf (meta.foldl (fun acc t => dictInsert acc t.id t) d)).Nodup := by
  induction meta with
  | nil => intro d hd; exact hd
  | cons t ts ih =>
    intro d hd
    exact ih (dictInsert d t.id t) (dictInsert_keys_nodup d t.id t hd)

theorem dictOfMeta_go_keys_mem (meta : List Track) :
    ∀ (d : List (Nat × Track)) (k : Nat),
      k ∈ keysOf (meta.foldl (fun acc t => dictInsert acc t.id t) d) ↔
        k ∈ keysOf d ∨ k ∈ meta.map Track.id := by
  induction meta with
  | nil => intro d k; simp
  | cons t ts ih =>
    intro d k
    rw [List.foldl_cons, ih, dictInsert_keys_mem]
    simp only [List.map_cons, List.mem_cons]
    tauto

theorem dictOfMeta_go_lookup (meta : List Track) :
    ∀ (d : List (Nat × Track)) (k : Nat),
      lookupD (meta.foldl (fun acc t => dictInsert acc t.id t) d) k =
        match meta.reverse.find? (fun t => decide (t.id = k)) with
        | some t => some t
        | none => lookupD d k := by
  induction meta with
  | nil => intro d k; simp
  | cons t ts ih =>
    intro d k
    rw [List.foldl_cons, ih, List.reverse_cons, List.find?_append]
    cases hts : ts.reverse.find? (fun t => decide (t.id = k)) with
    | some u => simp [Option.orElse]
    | none =>
      rw [lookupD_dictInsert]
      by_cases hk : t.id = k
      · simp [Option.orElse, List.find?_cons, hk]
      · have hk' : ¬k = t.id := fun h => hk h.symm
        simp [Option.orElse, List.find?_cons, hk, hk']

theorem values_find_eq_lookupD (k : Nat) :
    ∀ d : List (Nat × Track), (∀ p ∈ d, p.2.id = p.1) →
      (d.map Prod.snd).find? (fun t => decide (t.id = k)) = lookupD d k
  | [] => by intro _; simp [lookupD]
  | p :: ds => by
    intro hwf
    have hid : p.2.id = p.1 := hwf p (List.mem_cons_self p ds)
    by_cases hk : p.1 = k
    · unfold lookupD
      rw [List.map_cons, List.find?_cons_of_pos _ (by simpa [hid] using hk),
        List.find?_cons_of_pos _ (by simpa using hk)]
      rfl
    · unfold lookupD
      rw [List.map_cons, List.find?_cons_of_neg _ (by simpa [hid] using hk),
        List.find?_cons_of_neg _ (by simpa using hk)]
      exact values_find_eq_lookupD k ds (fun q hq => hwf q (List.mem_cons_of_mem p hq))

theorem dictOfMeta_wf (meta : List Track) :
    ∀ p ∈ dictOfMeta meta, p.2.id = p.1 :=
  dictOfMeta_go_wf meta [] (by simp)

/-- Ids of the records `deduplicate` returns, as a list, are exactly the
keys of the underlying dict. -/
theorem deduplicate_ids_eq_keys (meta : List Track) :
    (deduplicate meta).2.map Track.id = keysOf (dictOfMeta meta) := by
  unfold deduplicate keysOf
  rw [List.map_map]
  exact List.map_congr_left fun p hp => dictOfMeta_wf meta p hp

/-- Ids of the records `deduplicate` returns contain no repetition. -/
theorem deduplicate_ids_nodup (meta : List Track) :
    ((deduplicate meta).2.map Track.id).Nodup := by
  rw [deduplicate_ids_eq_keys]
  exact dictOfMeta_go_nodup meta [] (by simp [keysOf])

/-- The id set `deduplicate` returns is the id set of its record list. -/
theorem deduplicate_fst_eq (meta : List Track) :
    (deduplicate meta).1 = ((deduplicate meta).2.map Track.id).toFinset := by
  rw [deduplicate_ids_eq_keys]
  rfl

/-- The kept record for an id is the last input record with that id. -/
theorem deduplicate_find_last (meta : List Track) (i : Nat) :
    (deduplicate meta).2.find? (fun t => decide (t.id = i)) =
      meta.reverse.find? (fun t => decide (t.id = i)) := by
  unfold deduplicate
  rw [values_find_eq_lookupD i (dictOfMeta meta) (dictOfMeta_wf meta)]
  unfold dictOfMeta
  rw [dictOfMeta_go_lookup]
  cases meta.reverse.find? (fun t => decide (t.id = i)) with
  | some t => rfl
  | none => simp [lookupD]

/-- Record ids surviving `deduplicate` are exactly the input ids. -/
theorem deduplicate_ids_toFinset (meta : List Track) :
    ((deduplicate meta).2.map Track.id).toFinset = (meta.map Track.id).toFinset := by
  rw [deduplicate_ids_eq_keys]
  ext k
  simp only [List.mem_toFinset]
  unfold dictOfMeta
  rw [dictOfMeta_go_keys_mem]
  simp [keysOf]

/-! Lemmas about `update_meta` and the `download` loop. -/

theorem updateMetaAux_rounds (fetch : Finset Nat → List Track) :
    ∀ (fuel : Nat) (meta : List Track) (missing : Finset Nat) (todo : Nat),
      (updateMetaAux fetch fuel meta missing todo).rounds ≤ todo := by
  intro fuel
  induction fuel with
  | zero =>
    intro meta missing todo
    cases todo <;> simp [updateMetaAux]
  | succ n ih =>
    intro meta missing todo
    cases todo with
    | zero => simp [updateMetaAux]
    | succ m =>
      simp only [updateMetaAux]
      by_cases h1 : 0 < (missing \ ((fetch missing).map Track.id).toFinset).card
      · rw [if_pos h1]
        by_cases h2 : (missing \ ((fetch missing).map Track.id).toFinset).card < m + 1
        · rw [if_pos h2]
          exact Nat.succ_le_succ ((ih (meta ++ fetch missing)
            (missing \ ((fetch missing).map Track.id).toFinset)
            (missing \ ((fetch missing).map Track.id).toFinset).card).trans (by omega))
        · rw [if_neg h2]
          exact Nat.succ_le_succ (Nat.zero_le m)
      · rw [if_neg h1]
        exact Nat.succ_le_succ (Nat.zero_le m)

theorem update_meta_no_progress (fetch : Finset Nat → List Track)
    (meta : List Track) (missing : Finset Nat) (todo : Nat) (h0 : 0 < todo)
    (hge : todo ≤ (missing \ ((fetch missing).map Track.id).toFinset).card) :
    update_meta fetch meta missing todo =
      ⟨meta ++ fetch missing, [cannotFetchMsg todo], 1⟩ := by
  obtain ⟨m, rfl⟩ : ∃ m, todo = m + 1 := ⟨todo - 1, by omega⟩
  unfold update_meta
  simp only [updateMetaAux]
  rw [if_pos (by omega), if_neg (by omega)]

theorem updateMetaAux_nodup (fetch : Finset Nat → List Track)
    (hc : ∀ s : Finset Nat, ((fetch s).map Track.id).Nodup ∧ ∀ t ∈ fetch s, t.id ∈ s) :
    ∀ (fuel : Nat) (meta : List Track) (missing : Finset Nat) (todo : Nat),
      (meta.map Track.id).Nodup → (∀ t ∈ meta, t.id ∉ missing) →
      ((updateMetaAux fetch fuel meta missing todo).meta.map Track.id).Nodup := by
  intro fuel
  induction fuel with
  | zero =>
    intro meta missing todo hnd _
    cases todo <;> simpa [updateMetaAux] using hnd
  | succ n ih =>
    intro meta missing todo hnd hdisj
    cases todo with
    | zero => simpa [updateMetaAux] using hnd
    | succ m =>
      have hnd' : ((meta ++ fetch missing).map Track.id).Nodup := by
        rw [List.map_append, List.nodup_append]
        refine ⟨hnd, (hc missing).1, ?_⟩
        intro a ha hb
        obtain ⟨t, ht, rfl⟩ := List.mem_map.mp ha
        obtain ⟨u, hu, huid⟩ := List.mem_map.mp hb
        exact hdisj t ht (huid ▸ (hc missing).2 u hu)
      have hdisj' : ∀ t ∈ meta ++ fetch missing,
          t.id ∉ missing \ ((fetch missing).map Track.id).toFinset := by
        intro t ht
        rcases List.mem_append.mp ht with ht | ht
        · intro hmem
          exact hdisj t ht (Finset.mem_sdiff.mp hmem).1
        · intro hmem
          exact (Finset.mem_sdiff.mp hmem).2
            (List.mem_toFinset.mpr (List.mem_map_of_mem Track.id ht))
      simp only [updateMetaAux]
      by_cases h1 : 0 < (missing \ ((fetch missing).map Track.id).toFinset).card
      · rw [if_pos h1]
        by_cases h2 : (missing \ ((fetch missing).map Track.id).toFinset).card < m + 1
        · rw [if_pos h2]
          exact ih _ _ _ hnd' hdisj'
        · rw [if_neg h2]
          exact hnd'
      · rw [if_neg h1]
        exact hnd'

theorem downloadLoop_skipped (dryRun : Bool) (acq : Nat → Bool) (base : Finset Nat) :
    ∀ (ts : List Track) (s : Reconc), (ts.map Track.id).Nodup →
      (∀ t ∈ ts, (t.id ∈ s.store ↔ t.id ∈ base)) →
      (downloadLoop dryRun acq s ts).skipped
        = s.skipped + ts.countP (fun t => decide (t.id ∈ base)) := by
  intro ts
  induction ts with
  | nil =>
    intro s _ _
    simp [downloadLoop]
  | cons t ts ih =>
    intro s hnd hinv
    have hndt := (List.nodup_cons.mp hnd).1
    have hnds := (List.nodup_cons.mp hnd).2
    rw [downloadLoop]
    by_cases hmem : t.id ∈ s.store
    · have hbase : t.id ∈ base := (hinv t (List.mem_cons_self t ts)).mp hmem
      have hstep : downloadStep dryRun (acq t.id) s t =
          { s with skipped := s.skipped + 1, msgs := s.msgs ++ [skipLine t] } := by
        simp [downloadStep, hmem]
      have hinv' : ∀ u ∈ ts, u.id ∈ s.store ↔ u.id ∈ base :=
        fun u hu => hinv u (List.mem_cons_of_mem t hu)
      rw [hstep,
        ih { s with skipped := s.skipped + 1, msgs := s.msgs ++ [skipLine t] } hnds hinv',
        List.countP_cons]
      simp [hbase]
      omega
    · have hbase : t.id ∉ base :=
        fun hb => hmem ((hinv t (List.mem_cons_self t ts)).mpr hb)
      have hstep : downloadStep dryRun (acq t.id) s t =
          { s with
            store := insert t.id s.store
            records := s.records ++ [t]
            acquired := if dryRun then s.acquired else s.acquired ++ [t.id] } := by
        simp [downloadStep, hmem]
      have hinv' : ∀ u ∈ ts, u.id ∈ insert t.id s.store ↔ u.id ∈ base := by
        intro u hu
        have hne : u.id ≠ t.id := by
          intro he
          exact hndt (he ▸ List.mem_map_of_mem Track.id hu)
        rw [Finset.mem_insert]
        constructor
        · rintro (h | h)
          · exact absurd h hne
          · exact (hinv u (List.mem_cons_of_mem t hu)).mp h
        · intro h
          exact Or.inr ((hinv u (List.mem_cons_of_mem t hu)).mpr h)
      rw [hstep,
        ih { s with
              store := insert t.id s.store
              records := s.records ++ [t]
              acquired := if dryRun then s.acquired else s.acquired ++ [t.id] }
          hnds hinv',
        List.countP_cons]
      simp [hbase]

/-! Claim theorems. -/

/-- Claim C1, counterexample: the claim says the skip accounting's total
`n` is the remote-declared `trackCount`.  With a declared count of 2 but a
returned sequence of a single already-seen track, the code raises
`AllTracksSkippedException` (it compares the skip count against
`len(playlist)`), while the claim's accounting with `n = trackCount = 2`
predicts the partial-skip summary line instead.  So the claim, as stated,
is false at this input. -/
theorem claim_C1_counterexample :
    (download false (fun _ => true) {5} ⟨[trackA], 2⟩).2 = .allSkipped ∧
    downloadOutcomeClaim false (fun _ => true) {5} ⟨[trackA], 2⟩ =
      .summary (summaryLine 1 2) ∧
    downloadOutcomeClaim false (fun _ => true) {5} ⟨[trackA], 2⟩ ≠
      (download false (fun _ => true) {5} ⟨[trackA], 2⟩).2 := by
  decide

/-- Claim C1 (amended): after the reconciliation loop, if every track was
skipped the run signals AllTracksSkipped; if the skip count `k` satisfies
`0 < k < n` exactly the one summary line `Skipped <k> of <n> tracks in the
playlist.` is printed; if `k = 0` nothing is printed — where the total `n`
is the length of the returned track sequence (`len(playlist)`), not the
remote-declared `trackCount`.  Stated for playlists without repeated track
ids, where the loop's evolving store reduces to membership in the initial
store. -/
theorem claim_C1_amended (dryRun : Bool) (acq : Nat → Bool) (store : Finset Nat)
    (p : Playlist) (hnd : (p.tracks.map Track.id).Nodup) :
    (download dryRun acq store p).2 = downloadOutcomeAmendedClaim store p := by
  have hskip : (downloadLoop dryRun acq ⟨store, [], 0, [], []⟩ p.tracks).skipped
      = p.tracks.countP fun t => decide (t.id ∈ store) := by
    rw [downloadLoop_skipped dryRun acq store p.tracks ⟨store, [], 0, [], []⟩ hnd
      (fun t _ => Iff.rfl)]
    simp
  show skipAccounting (downloadLoop dryRun acq ⟨store, [], 0, [], []⟩ p.tracks).skipped
      p.tracks.length = downloadOutcomeAmendedClaim store p
  rw [hskip]
  rfl

/-- Witness for the amended claim C1 at a concrete playlist: one of two
distinct tracks is already in the store, so the summary branch is taken. -/
theorem claim_C1_amended_witness :
    (download false (fun _ => true) {5} ⟨[trackA, trackB], 2⟩).2 =
      downloadOutcomeAmendedClaim {5} ⟨[trackA, trackB], 2⟩ :=
  claim_C1_amended false (fun _ => true) {5} ⟨[trackA, trackB], 2⟩ (by decide)

/-- Claim C2: if serialization of the value fails, `serialize` performs no
rename onto the destination — the destination's content is exactly its
previous version and the run leaves through `bug()`; the destination is
replaced only when serialization completed fully. -/
theorem claim_C2_serialize_atomic (run : SerializerRun) (dest : Option String) :
    (∀ written, run = .failure written →
      (serialize run dest).dest = dest ∧ (serialize run dest).status = .bugExit bug) ∧
    ((serialize run dest).dest ≠ dest →
      ∃ c, run = .success c ∧ (serialize run dest).dest = some c ∧
        (serialize run dest).status = .completed) := by
  cases run with
  | failure w =>
    exact ⟨fun _ _ => ⟨rfl, rfl⟩, fun h => absurd rfl h⟩
  | success c =>
    refine ⟨fun w hw => SerializerRun.noConfusion hw, fun _ => ⟨c, rfl, rfl, rfl⟩⟩

/-- Witness for claim C2: a failing serialization over an existing
destination file leaves it byte-identical. -/
theorem claim_C2_serialize_atomic_witness :
    (serialize (.failure "half") (some "old")).dest = some "old" ∧
    (serialize (.failure "half") (some "old")).status = .bugExit bug :=
  (claim_C2_serialize_atomic (.failure "half") (some "old")).1 "half" rfl

/-- Claim C3: for a track whose id is absent from the store, the loop body
adds the id to the store and appends the full record unconditionally; the
acquisition is suppressed under dry run, and the outcome of the `ncm`
subprocess (discarded by the source) never changes the resulting state. -/
theorem claim_C3_new_track_added (dryRun acqOk : Bool) (s : Reconc) (t : Track)
    (h : t.id ∉ s.store) :
    (downloadStep dryRun acqOk s t).store = insert t.id s.store ∧
    (downloadStep dryRun acqOk s t).records = s.records ++ [t] ∧
    (downloadStep dryRun acqOk s t).acquired =
      (if dryRun then s.acquired else s.acquired ++ [t.id]) ∧
    ∀ b : Bool, downloadStep dryRun b s t = downloadStep dryRun acqOk s t := by
  refine ⟨?_, ?_, ?_, ?_⟩ <;> simp [downloadStep, h]

/-- Witness for claim C3 on an empty store and a failing acquisition
being irrelevant. -/
theorem claim_C3_new_track_added_witness :
    (downloadStep false true ⟨∅, [], 0, [], []⟩ trackA).store = insert trackA.id ∅ ∧
    (downloadStep false true ⟨∅, [], 0, [], []⟩ trackA).records = [] ++ [trackA] ∧
    (downloadStep false true ⟨∅, [], 0, [], []⟩ trackA).acquired =
      (if false then [] else [] ++ [trackA.id]) ∧
    ∀ b : Bool, downloadStep false b ⟨∅, [], 0, [], []⟩ trackA =
      downloadStep false true ⟨∅, [], 0, [], []⟩ trackA :=
  claim_C3_new_track_added false true ⟨∅, [], 0, [], []⟩ trackA (by decide)

/-- Claim C4, counterexample: the claim quotes the no-progress report as
`Cannot fetch <n> tracks. Probably they are gone.` but the source formats
`Cannot fetch <n> tracks. Probably they are gone (404).` (plus a trailing
newline): at `missing = {1}, todo = 1` with a fetch that returns nothing,
the printed message is not the claimed string. -/
theorem claim_C4_counterexample :
    (update_meta (fun _ => []) [] {1} 1).msgs = [cannotFetchMsg 1] ∧
    (update_meta (fun _ => []) [] {1} 1).msgs ≠
      ["Cannot fetch 1 tracks. Probably they are gone."] := by
  decide

/-- Claim C4 (amended): the missing-track resolver terminates — the number
of fetch rounds is bounded by the initial budget, because it recurses only
when the still-missing set is non-empty and strictly smaller than the
current budget — and when no progress was made it stops after the single
round and reports `Cannot fetch <n> tracks. Probably they are gone
(404).` (with `n` the current budget) without raising. -/
theorem claim_C4_amended (fetch : Finset Nat → List Track) (meta : List Track)
    (missing : Finset Nat) (todo : Nat) :
    (update_meta fetch meta missing todo).rounds ≤ todo ∧
    (0 < todo → todo ≤ (missing \ ((fetch missing).map Track.id).toFinset).card →
      update_meta fetch meta missing todo =
        ⟨meta ++ fetch missing, [cannotFetchMsg todo], 1⟩) :=
  ⟨updateMetaAux_rounds fetch todo meta missing todo,
   fun h0 hge => update_meta_no_progress fetch meta missing todo h0 hge⟩

/-- Witness for the amended claim C4: a fetch returning nothing on
`missing = {1}` with budget 1 stops after one round with the report. -/
theorem claim_C4_amended_witness :
    (update_meta (fun _ => []) [] {1} 1).rounds ≤ 1 ∧
    update_meta (fun _ => []) ([] : List Track) ({1} : Finset Nat) 1 =
      ⟨[] ++ [], [cannotFetchMsg 1], 1⟩ := by
  have h := claim_C4_amended (fun _ => []) [] {1} 1
  exact ⟨h.1, by simpa using h.2 (by decide) (by decide)⟩

/-- Claim C5: `dfs_id` walks the preference list in order and returns the
resource id of the first listed variant present with a non-null `dfsId`
(never consulting variants outside the list — the result is a function of
the listed variants only), and fails with the NoResourceAvailable error
when every listed variant is absent, null, or lacks a non-null `dfsId`. -/
theorem claim_C5_dfs_id_first_match (track : Track) (qualities : List String) :
    dfs_id track qualities =
      match selectResourceIdSpec track qualities with
      | some d => .ok d
      | none => .error () := by
  induction qualities with
  | nil => rfl
  | cons q qs ih =>
    rw [dfs_id, selectResourceIdSpec, List.findSome?_cons]
    cases hv : track.variants q with
    | absent => simpa [selectResourceIdSpec] using ih
    | null => simpa [selectResourceIdSpec] using ih
    | record f =>
      match f with
      | none => simpa [selectResourceIdSpec] using ih
      | some none => simpa [selectResourceIdSpec] using ih
      | some (some d) => rfl

/-- Claim C6: the ledger is monotone — `update_history` only ever adds
ids, and a full `export_history` run only grows the persisted ledger. -/
theorem claim_C6_ledger_monotone (history ids : Finset Nat)
    (fetch : Finset Nat → List Track) (meta0 : List Track) :
    history ⊆ (update_history history ids).history ∧
    history ⊆ (export_history fetch history meta0).historyAfter :=
  ⟨Finset.subset_union_left, Finset.subset_union_left⟩

/-- Claim C7: after a save of the metadata store (`save_meta` at the end of
`export_history`), the persisted sequence contains no two records with the
same TrackId — assuming the external batch fetcher returns at most one
record per requested id and only requested ids. -/
theorem claim_C7_meta_nodup_after_save (fetch : Finset Nat → List Track)
    (hc : ∀ s : Finset Nat, ((fetch s).map Track.id).Nodup ∧ ∀ t ∈ fetch s, t.id ∈ s)
    (history : Finset Nat) (meta0 : List Track) :
    (((export_history fetch history meta0).metaSaved).map Track.id).Nodup := by
  have hnd := deduplicate_ids_nodup meta0
  have hdisj : ∀ t ∈ (deduplicate meta0).2,
      t.id ∉ history \ (deduplicate meta0).1 := by
    intro t ht hmem
    have hid : t.id ∈ (deduplicate meta0).1 := by
      rw [deduplicate_fst_eq]
      exact List.mem_toFinset.mpr (List.mem_map_of_mem Track.id ht)
    exact (Finset.mem_sdiff.mp hmem).2 hid
  exact updateMetaAux_nodup fetch hc _ _ _ _ hnd hdisj

/-- Witness for claim C7: exporting over a metadata file holding two
records with the same id persists a deduplicated sequence. -/
theorem claim_C7_meta_nodup_after_save_witness :
    (((export_history (fun _ => []) {1} [trackA, trackA2]).metaSaved).map Track.id).Nodup :=
  claim_C7_meta_nodup_after_save (fun _ => [])
    (fun _ => ⟨List.nodup_nil, fun t ht => absurd ht (List.not_mem_nil t)⟩)
    {1} [trackA, trackA2]

/-- Claim C8: loading either store with the backing file absent returns the
empty ledger / empty sequence and never takes an error path; the
`bug()` (CorruptState) path is taken exactly when the file exists and the
decoder rejects it. -/
theorem claim_C8_load_absence (pm : String → Option (List Track))
    (ph : String → Option (Finset Nat)) (fs fh : FileState) :
    load_meta pm .absent = .value [] ∧
    load_history ph .absent = .value ∅ ∧
    (∀ raw, pm raw = none → load_meta pm (.present raw) = .bugged bug) ∧
    (∀ raw, ph raw = none → load_history ph (.present raw) = .bugged bug) ∧
    (∀ r, load_meta pm fs = .bugged r → ∃ raw, fs = .present raw ∧ pm raw = none) ∧
    (∀ r, load_history ph fh = .bugged r → ∃ raw, fh = .present raw ∧ ph raw = none) := by
  refine ⟨rfl, rfl, ?_, ?_, ?_, ?_⟩
  · intro raw h
    simp [load_meta, h]
  · intro raw h
    simp [load_history, h]
  · intro r h
    cases fs with
    | absent => simp [load_meta] at h
    | present raw =>
      refine ⟨raw, rfl, ?_⟩
      cases hp : pm raw with
      | none => rfl
      | some m => simp [load_meta, hp] at h
  · intro r h
    cases fh with
    | absent => simp [load_history] at h
    | present raw =>
      refine ⟨raw, rfl, ?_⟩
      cases hp : ph raw with
      | none => rfl
      | some s => simp [load_history, hp] at h

/-- Witness for claim C8: an absent meta file loads as the empty list and a
present-but-undecodable one goes through `bug()`. -/
theorem claim_C8_load_absence_witness :
    load_meta (fun _ => some []) .absent = .value [] ∧
    load_meta (fun _ => none) (.present "garbage") = .bugged bug :=
  ⟨(claim_C8_load_absence (fun _ => some []) (fun _ => some ∅) .absent .absent).1,
   (claim_C8_load_absence (fun _ => none) (fun _ => some ∅) .absent .absent).2.2.1
     "garbage" rfl⟩

/-- Claim C9, counterexample: the claim says the CorruptState path exits
with a code from the I/O-error family, but `bug()` exits with
`os.EX_SOFTWARE` (70), the internal-software-error code, not `os.EX_IOERR`
(74). -/
theorem claim_C9_counterexample :
    bug.exitCode = EX_SOFTWARE ∧ EX_SOFTWARE = 70 ∧ bug.exitCode ≠ EX_IOERR := by
  decide

/-- Claim C9 (amended): when a local store file exists but cannot be
decoded, the program instructs the user to file a bug report, prints a
stack trace, and exits with the internal-software-error code
`os.EX_SOFTWARE` (70). -/
theorem claim_C9_amended (pm : String → Option (List Track)) (raw : String)
    (h : pm raw = none) :
    load_meta pm (.present raw) = .bugged bug ∧
    bug.stderrMsg =
      "Most likely you have encountered a bug.\n" ++
      "Please report it at https://github.com/weakish/fm163\n" ++
      "Thanks.\n" ++ "\n" ++ "Stacktrace:\n" ∧
    bug.stacktrace = true ∧
    bug.exitCode = EX_SOFTWARE :=
  ⟨by simp [load_meta, h], rfl, rfl, rfl⟩

/-- Witness for the amended claim C9 at a concrete undecodable file. -/
theorem claim_C9_amended_witness :
    load_meta (fun _ => none) (.present "zz") = .bugged bug ∧
    bug.stderrMsg =
      "Most likely you have encountered a bug.\n" ++
      "Please report it at https://github.com/weakish/fm163\n" ++
      "Thanks.\n" ++ "\n" ++ "Stacktrace:\n" ∧
    bug.stacktrace = true ∧
    bug.exitCode = EX_SOFTWARE :=
  claim_C9_amended (fun _ => none) "zz" rfl

/-- Claim C10: `deduplicate` keeps exactly one record per TrackId — the ids
of the returned records repeat nowhere and cover exactly the input ids, the
kept record for an id is the last input occurrence with that id, and the
returned `SortedSet` equals the id set of the returned record list. -/
theorem claim_C10_deduplicate_last_wins (meta : List Track) :
    ((deduplicate meta).2.map Track.id).Nodup ∧
    ((deduplicate meta).2.map Track.id).toFinset = (meta.map Track.id).toFinset ∧
    (deduplicate meta).1 = ((deduplicate meta).2.map Track.id).toFinset ∧
    ∀ i : Nat, (deduplicate meta).2.find? (fun t => decide (t.id = i)) =
      meta.reverse.find? (fun t => decide (t.id = i)) :=
  ⟨deduplicate_ids_nodup meta, deduplicate_ids_toFinset meta,
   deduplicate_fst_eq meta, fun i => deduplicate_find_last meta i⟩

end Fm163
